import Mathlib

/-!
Verification of the k-means clustering program (kmeans.py).

The program is embedded shallowly with exact rational arithmetic (ℚ in
place of Python floats).  The source compares Euclidean distances only
against other distances or against the constant epsilon = 0.001; since
the square root is strictly monotone on nonnegative reals, every such
comparison is performed here on squared distances (with threshold
epsilon² = 1/1000000).  Theorem statements about genuine Euclidean
distances use Real.sqrt of the squared distance and are bridged by
monotonicity lemmas.

Python's float('inf') sentinel in the assignment loop is modelled by
Option ℚ (none = infinity); a sum of squares of rationals is always
finite, so every computed distance compares below the sentinel, exactly
as every finite float compares below inf.

The CLI layer (main) is modelled as a pure function from the argument
vector and the list of stdin lines to a MainResult; printing a fixed
error message and calling sys.exit(1) is modelled by the failure
constructor (exit status 1), and printing centroids with exit status 0
by the success constructor.  Python's float() literal parser is left
abstract (a parameter parseFloat : String → Option ℚ); none of the
claims about main depend on the float grammar.
-/

/-- Squared Euclidean distance between two points, mirroring
euclidean_distance in kmeans.py (which returns the square root of this
value).  The source iterates over the indices of point1 and would raise
IndexError if point2 were shorter; all callers guarantee equal length. -/
def euclidean_distance_sq : List ℚ → List ℚ → ℚ
  | x :: xs, y :: ys => (x - y) ^ 2 + euclidean_distance_sq xs ys
  | _, _ => 0

/-- Inner loop of assign_to_clusters in kmeans.py: scan the centroids,
keeping the index of the first centroid whose distance is strictly
smaller than every distance seen before.  min_distance = float('inf')
is modelled by none. -/
def closestAux (point : List ℚ) : List (List ℚ) → Nat → Option ℚ → Nat → Nat
  | [], _, _, best => best
  | c :: cs, idx, minD, best =>
    match minD with
    | none => closestAux point cs (idx + 1) (some (euclidean_distance_sq point c)) idx
    | some m =>
      if euclidean_distance_sq point c < m then
        closestAux point cs (idx + 1) (some (euclidean_distance_sq point c)) idx
      else
        closestAux point cs (idx + 1) (some m) best

/-- Index of the cluster a point is assigned to: min_distance starts at
infinity and closest_cluster at 0, as in assign_to_clusters. -/
def closest_cluster (point : List ℚ) (centroids : List (List ℚ)) : Nat :=
  closestAux point centroids 0 none 0

/-- clusters[i].append(p): append p to the i-th inner list, leaving the
others unchanged (out-of-range i would raise IndexError in the source
and never occurs). -/
def appendAt : List (List (List ℚ)) → Nat → List ℚ → List (List (List ℚ))
  | [], _, _ => []
  | c :: cs, 0, p => (c ++ [p]) :: cs
  | c :: cs, Nat.succ i, p => c :: appendAt cs i p

/-- assign_to_clusters in kmeans.py: start from len(centroids) empty
clusters and append each datapoint to the cluster of its closest
centroid, in input order. -/
def assign_to_clusters (datapoints : List (List ℚ)) (centroids : List (List ℚ)) :
    List (List (List ℚ)) :=
  datapoints.foldl
    (fun clusters point => appendAt clusters (closest_cluster point centroids) point)
    (List.replicate centroids.length [])

/-- update_centroids in kmeans.py: an empty cluster yields the zero
vector of the given dimension; a non-empty cluster yields the
coordinate-wise sum of its points (accumulated into [0.0]*dimension)
divided by the cluster size. -/
def update_centroids (clusters : List (List (List ℚ))) (dimension : Nat) :
    List (List ℚ) :=
  clusters.map (fun cluster =>
    if cluster.length = 0 then
      List.replicate dimension (0 : ℚ)
    else
      (cluster.foldl (fun acc point => List.zipWith (fun a b => a + b) acc point)
        (List.replicate dimension (0 : ℚ))).map
        (fun s => s / (cluster.length : ℚ)))

/-- Square of the convergence threshold epsilon = 0.001 of
has_converged in kmeans.py. -/
def epsilon_sq : ℚ := 1 / 1000000

/-- has_converged in kmeans.py: distance(old[i], new[i]) >= 0.001 for
some i means not converged; on squared distances the test is
euclidean_distance_sq >= epsilon².  The source indexes new by the
indices of old and would raise IndexError on a shorter new list; all
callers pass equal-length lists. -/
def has_converged : List (List ℚ) → List (List ℚ) → Bool
  | o :: os, n :: ns =>
    if epsilon_sq ≤ euclidean_distance_sq o n then false else has_converged os ns
  | _, _ => true

/-- Iteration loop of kmeans in kmeans.py, with the remaining iteration
count as fuel: compute clusters and candidate centroids, stop with the
candidates on convergence, otherwise continue from the candidates; when
the fuel runs out the last adopted candidates are returned. -/
def kmeansLoop (datapoints : List (List ℚ)) (dimension : Nat) :
    Nat → List (List ℚ) → List (List ℚ)
  | 0, centroids => centroids
  | Nat.succ n, centroids =>
    let clusters := assign_to_clusters datapoints centroids
    let new_centroids := update_centroids clusters dimension
    if has_converged centroids new_centroids then new_centroids
    else kmeansLoop datapoints dimension n new_centroids

/-- Initial centroids of kmeans in kmeans.py: element-wise copies of
the first k datapoints, in input order (callers guarantee k < N). -/
def initial_centroids (datapoints : List (List ℚ)) (k : Nat) : List (List ℚ) :=
  datapoints.take k

/-- kmeans in kmeans.py: dimension is the length of the first
datapoint, centroids start as the first k points, then the loop runs
for at most max_iter iterations. -/
def kmeans (datapoints : List (List ℚ)) (k max_iter : Nat) : List (List ℚ) :=
  kmeansLoop datapoints datapoints.headI.length max_iter (initial_centroids datapoints k)

/-- Accumulator loop for a run of ASCII decimal digits, as consumed by
Python's int(): fails on the first non-digit character. -/
def py_digits_aux : List Char → Nat → Option Nat
  | [], acc => some acc
  | c :: cs, acc =>
    if c.isDigit then py_digits_aux cs (10 * acc + (c.toNat - 48)) else none

/-- Python's int(s) on the strings that matter here: an optional
leading minus followed by at least one decimal digit.  Python's int()
is laxer (it also tolerates surrounding whitespace, a plus sign,
underscores between digits, leading zeros and non-ASCII digits), but
every such extra string differs from str(int(s)) and is therefore
rejected by the round-trip check of parse_int_strict in both the source
and this model, so the composed function agrees with the source. -/
def py_int_of_string (s : String) : Option Int :=
  match s.data with
  | [] => none
  | '-' :: c :: cs => (py_digits_aux (c :: cs) 0).map (fun n => -(n : Int))
  | cs => (py_digits_aux cs 0).map (fun n => (n : Int))

/-- Decimal digits of n in order, with explicit fuel (any fuel above
the digit count gives the same result; callers pass n + 1). -/
def py_nat_digits : Nat → Nat → List Char
  | 0, _ => []
  | Nat.succ fuel, n =>
    if n < 10 then [Char.ofNat (48 + n)]
    else py_nat_digits fuel (n / 10) ++ [Char.ofNat (48 + n % 10)]

/-- Python's str(num) for an integer: canonical decimal notation, a
minus sign for negatives, no plus sign and no leading zeros. -/
def py_str_of_int : Int → String
  | Int.ofNat n => String.mk (py_nat_digits (n + 1) n)
  | Int.negSucc m => String.mk ('-' :: py_nat_digits (m + 2) (m + 1))

/-- parse_int_strict in kmeans.py: int(s) followed by the round-trip
check str(num) == s, which rejects anything but the canonical decimal
form (so "2.5", "2x", "007", "+5", " 5" all yield None). -/
def parse_int_strict (s : String) : Option Int :=
  match py_int_of_string s with
  | none => none
  | some num => if py_str_of_int num = s then some num else none

/-- Python's str.strip(): drop leading and trailing whitespace
(space, tab, carriage return, newline — the characters that occur in
the program's line-oriented input). -/
def py_strip (s : String) : String :=
  String.mk (((s.data.dropWhile Char.isWhitespace).reverse.dropWhile
    Char.isWhitespace).reverse)

/-- Helper for Python's str.split(brk): accumulate the current field in
reverse; an empty string yields the single empty field, as in Python. -/
def py_split_commas_aux : List Char → List Char → List String
  | [], cur => [String.mk cur.reverse]
  | c :: cs, cur =>
    if c = ',' then String.mk cur.reverse :: py_split_commas_aux cs []
    else py_split_commas_aux cs (c :: cur)

/-- Python's line.split(): every comma is a separator and empty
fields are kept. -/
def py_split_commas (s : String) : List String :=
  py_split_commas_aux s.data []

/-- One comma-separated field of an input line: stripped, an empty
field is an error, otherwise it is handed to the float parser. -/
def parse_field (parseFloat : String → Option ℚ) (val : String) : Option ℚ :=
  if (py_strip val).data.isEmpty then none else parseFloat (py_strip val)

/-- One non-empty input line of read_input in kmeans.py: split on
commas and parse every field; any field failure is the generic error. -/
def parse_line (parseFloat : String → Option ℚ) (line : String) : Option (List ℚ) :=
  (py_split_commas line).mapM (parse_field parseFloat)

/-- Line loop of read_input in kmeans.py: skip blank lines, parse each
remaining line, record the dimension of the first point and reject any
later point of a different dimension.  none models printing the generic
error and exiting with status 1. -/
def read_input_aux (parseFloat : String → Option ℚ) :
    List String → Option Nat → List (List ℚ) → Option (List (List ℚ))
  | [], _, acc => some acc
  | line :: rest, dim, acc =>
    if (py_strip line).data.isEmpty then read_input_aux parseFloat rest dim acc
    else
      match parse_line parseFloat (py_strip line) with
      | none => none
      | some point =>
        match dim with
        | none => read_input_aux parseFloat rest (some point.length) (acc ++ [point])
        | some d =>
          if point.length = d then read_input_aux parseFloat rest (some d) (acc ++ [point])
          else none

/-- read_input in kmeans.py over a list of stdin lines. -/
def read_input (parseFloat : String → Option ℚ) (lines : List String) :
    Option (List (List ℚ)) :=
  read_input_aux parseFloat lines none []

/-- Outcome of main in kmeans.py: success carries the centroids that
are printed (exit status 0); failure carries the single fixed message
printed before sys.exit(1). -/
inductive MainResult where
  | success (centroids : List (List ℚ)) : MainResult
  | failure (message : String) : MainResult
deriving DecidableEq

/-- main in kmeans.py: argv is the full sys.argv (program name first).
Checks run in source order: argument count, strict parse of k, strict
parse of max_iter (default 400 when absent), read_input, the empty
input check, the range check 1 < k < N, the range check
1 < max_iter < 800, then the clustering itself. -/
def main_run (parseFloat : String → Option ℚ) (argv : List String)
    (lines : List String) : MainResult :=
  match argv with
  | _prog :: kArg :: rest =>
    if 1 < rest.length then MainResult.failure "An Error Has Occurred"
    else
      match parse_int_strict kArg with
      | none => MainResult.failure "Incorrect number of clusters!"
      | some k =>
        match (match rest with
               | [] => some (400 : Int)
               | iterArg :: _ => parse_int_strict iterArg) with
        | none => MainResult.failure "Incorrect maximum iteration!"
        | some max_iter =>
          match read_input parseFloat lines with
          | none => MainResult.failure "An Error Has Occurred"
          | some datapoints =>
            if datapoints.length = 0 then MainResult.failure "An Error Has Occurred"
            else if k ≤ 1 ∨ (datapoints.length : Int) ≤ k then
              MainResult.failure "Incorrect number of clusters!"
            else if max_iter ≤ 1 ∨ 800 ≤ max_iter then
              MainResult.failure "Incorrect maximum iteration!"
            else MainResult.success (kmeans datapoints k.toNat max_iter.toNat)
  | _ => MainResult.failure "An Error Has Occurred"

/-- Coordinate j of the coordinate-wise sum of a list of points
(specification-side helper for stating the mean). -/
def coordSum (cluster : List (List ℚ)) (j : Nat) : ℚ :=
  (cluster.map (fun p => p.getD j 0)).sum

/-- Five 1-dimensional datapoints 0, 1, 0.5005, 0.0016, 1.5019 used to
study the run with k = 2 and the default max_iter = 400.  The first
iteration groups them as {0, 0.0016} and {1, 0.5005, 1.5019}, so both
centroids move by exactly 0.0008 < 0.001 and the loop stops; under the
returned centroids (0.0008, 1.0008) the point 0.5005 switches sides,
so one further iteration moves centroid 0 to 5021/30000 ≈ 0.1674. -/
def cexPoints : List (List ℚ) := [[0], [1], [1001 / 2000], [1 / 625], [15019 / 10000]]

/-! ### Basic facts about the squared distance -/

theorem dsq_nil_left (q : List ℚ) : euclidean_distance_sq [] q = 0 := by
  cases q <;> rfl

theorem dsq_cons_cons (x y : ℚ) (xs ys : List ℚ) :
    euclidean_distance_sq (x :: xs) (y :: ys) =
      (x - y) ^ 2 + euclidean_distance_sq xs ys := rfl

theorem dsq_nonneg (p q : List ℚ) : 0 ≤ euclidean_distance_sq p q := by
  induction p generalizing q with
  | nil => rw [dsq_nil_left]
  | cons x xs ih =>
    cases q with
    | nil => exact le_refl 0
    | cons y ys =>
      rw [dsq_cons_cons]
      have h1 : (0 : ℚ) ≤ (x - y) ^ 2 := sq_nonneg _
      have h2 := ih ys
      linarith

theorem dsq_self (p : List ℚ) : euclidean_distance_sq p p = 0 := by
  induction p with
  | nil => rw [dsq_nil_left]
  | cons x xs ih => rw [dsq_cons_cons, ih]; ring

/-! ### Bridges between comparisons of Euclidean distances and of their
squares -/

theorem sqrt_rat_lt_thousandth_iff (q : ℚ) :
    Real.sqrt (q : ℝ) < 1 / 1000 ↔ q < epsilon_sq := by
  rw [Real.sqrt_lt' (by norm_num : (0 : ℝ) < 1 / 1000)]
  have h : ((1 : ℝ) / 1000) ^ 2 = ((1 / 1000000 : ℚ) : ℝ) := by norm_num
  rw [h, Rat.cast_lt]
  exact Iff.rfl

theorem sqrt_rat_le_sqrt_rat_iff (a b : ℚ) (hb : 0 ≤ b) :
    Real.sqrt (a : ℝ) ≤ Real.sqrt (b : ℝ) ↔ a ≤ b := by
  rw [Real.sqrt_le_sqrt_iff (by exact_mod_cast hb)]
  exact Rat.cast_le

theorem sqrt_rat_lt_sqrt_rat_iff (a b : ℚ) (ha : 0 ≤ a) :
    Real.sqrt (a : ℝ) < Real.sqrt (b : ℝ) ↔ a < b := by
  rw [Real.sqrt_lt_sqrt_iff (by exact_mod_cast ha)]
  exact Rat.cast_lt

/-! ### The inner minimisation loop of the assignment step -/

theorem closestAux_stay (p : List ℚ) (cs : List (List ℚ)) :
    ∀ (idx : Nat) (m : ℚ) (best : Nat),
      (∀ j, j < cs.length → m ≤ euclidean_distance_sq p (cs.getD j [])) →
      closestAux p cs idx (some m) best = best := by
  induction cs with
  | nil => intro idx m best _; rfl
  | cons c cs ih =>
    intro idx m best h
    have h0 : m ≤ euclidean_distance_sq p c := by
      have := h 0 (Nat.succ_pos _)
      simpa [List.getD_cons_zero] using this
    show (if euclidean_distance_sq p c < m then _ else _) = best
    rw [if_neg (not_lt.mpr h0)]
    exact ih (idx + 1) m best (fun j hj => by
      have := h (j + 1) (Nat.succ_lt_succ hj)
      simpa [List.getD_cons_succ] using this)

theorem closestAux_improve (p : List ℚ) (cs : List (List ℚ)) :
    ∀ (idx : Nat) (m : ℚ) (best : Nat),
      (∃ j, j < cs.length ∧ euclidean_distance_sq p (cs.getD j []) < m) →
      ∃ j, j < cs.length ∧
        closestAux p cs idx (some m) best = idx + j ∧
        euclidean_distance_sq p (cs.getD j []) < m ∧
        (∀ i, i < cs.length →
          euclidean_distance_sq p (cs.getD j []) ≤ euclidean_distance_sq p (cs.getD i [])) ∧
        (∀ i, i < j →
          euclidean_distance_sq p (cs.getD j []) < euclidean_distance_sq p (cs.getD i [])) := by
  induction cs with
  | nil =>
    intro idx m best h
    obtain ⟨j, hj, _⟩ := h
    exact absurd hj (Nat.not_lt_zero j)
  | cons c cs ih =>
    intro idx m best h
    by_cases h0 : euclidean_distance_sq p c < m
    · -- the head strictly improves the running minimum
      by_cases himp : ∃ j, j < cs.length ∧
          euclidean_distance_sq p (cs.getD j []) < euclidean_distance_sq p c
      · obtain ⟨j, hj, hrec, hlt, hmin, hstrict⟩ := ih (idx + 1) (euclidean_distance_sq p c) idx himp
        refine ⟨j + 1, Nat.succ_lt_succ hj, ?_, ?_, ?_, ?_⟩
        · show (if euclidean_distance_sq p c < m then _ else _) = idx + (j + 1)
          rw [if_pos h0, hrec]; omega
        · rw [List.getD_cons_succ]; exact lt_trans hlt h0
        · intro i hi
          cases i with
          | zero =>
            rw [List.getD_cons_succ, List.getD_cons_zero]
            exact le_of_lt hlt
          | succ i =>
            rw [List.getD_cons_succ, List.getD_cons_succ]
            exact hmin i (Nat.lt_of_succ_lt_succ hi)
        · intro i hi
          cases i with
          | zero =>
            rw [List.getD_cons_succ, List.getD_cons_zero]
            exact hlt
          | succ i =>
            rw [List.getD_cons_succ, List.getD_cons_succ]
            exact hstrict i (Nat.lt_of_succ_lt_succ hi)
      · push_neg at himp
        refine ⟨0, Nat.succ_pos _, ?_, ?_, ?_, ?_⟩
        · show (if euclidean_distance_sq p c < m then _ else _) = idx + 0
          rw [if_pos h0]
          rw [closestAux_stay p cs (idx + 1) (euclidean_distance_sq p c) idx himp]
          omega
        · rw [List.getD_cons_zero]; exact h0
        · intro i hi
          cases i with
          | zero => rw [List.getD_cons_zero]
          | succ i =>
            rw [List.getD_cons_zero, List.getD_cons_succ]
            exact himp i (Nat.lt_of_succ_lt_succ hi)
        · intro i hi; exact absurd hi (Nat.not_lt_zero i)
    · -- the head does not improve: the state is unchanged
      have hm0 : m ≤ euclidean_distance_sq p c := not_lt.mp h0
      obtain ⟨j0, hj0, hlt0⟩ := h
      have htail : ∃ j, j < cs.length ∧ euclidean_distance_sq p (cs.getD j []) < m := by
        cases j0 with
        | zero =>
          rw [List.getD_cons_zero] at hlt0
          exact absurd hlt0 h0
        | succ j0 =>
          rw [List.getD_cons_succ] at hlt0
          exact ⟨j0, Nat.lt_of_succ_lt_succ hj0, hlt0⟩
      obtain ⟨j, hj, hrec, hlt, hmin, hstrict⟩ := ih (idx + 1) m best htail
      refine ⟨j + 1, Nat.succ_lt_succ hj, ?_, ?_, ?_, ?_⟩
      · show (if euclidean_distance_sq p c < m then _ else _) = idx + (j + 1)
        rw [if_neg h0, hrec]; omega
      · rw [List.getD_cons_succ]; exact hlt
      · intro i hi
        cases i with
        | zero =>
          rw [List.getD_cons_succ, List.getD_cons_zero]
          exact le_of_lt (lt_of_lt_of_le hlt hm0)
        | succ i =>
          rw [List.getD_cons_succ, List.getD_cons_succ]
          exact hmin i (Nat.lt_of_succ_lt_succ hi)
      · intro i hi
        cases i with
        | zero =>
          rw [List.getD_cons_succ, List.getD_cons_zero]
          exact lt_of_lt_of_le hlt hm0
        | succ i =>
          rw [List.getD_cons_succ, List.getD_cons_succ]
          exact hstrict i (Nat.lt_of_succ_lt_succ hi)

/-- Least-index argmin specification of closest_cluster: the returned
index is in range, its distance is minimal, and every earlier index has
a strictly larger distance (an equal distance never replaces the
current best). -/
theorem closest_cluster_spec (p : List ℚ) (cents : List (List ℚ)) (hc : cents ≠ []) :
    closest_cluster p cents < cents.length ∧
    (∀ i, i < cents.length →
      euclidean_distance_sq p (cents.getD (closest_cluster p cents) []) ≤
        euclidean_distance_sq p (cents.getD i [])) ∧
    (∀ i, i < closest_cluster p cents →
      euclidean_distance_sq p (cents.getD (closest_cluster p cents) []) <
        euclidean_distance_sq p (cents.getD i [])) := by
  cases cents with
  | nil => exact absurd rfl hc
  | cons c cs =>
    have hstep : closest_cluster p (c :: cs) =
        closestAux p cs 1 (some (euclidean_distance_sq p c)) 0 := rfl
    by_cases himp : ∃ j, j < cs.length ∧
        euclidean_distance_sq p (cs.getD j []) < euclidean_distance_sq p c
    · obtain ⟨j, hj, hrec, hlt, hmin, hstrict⟩ :=
        closestAux_improve p cs 1 (euclidean_distance_sq p c) 0 himp
      have hcc : closest_cluster p (c :: cs) = j + 1 := by
        rw [hstep, hrec]; omega
      rw [hcc]
      refine ⟨Nat.succ_lt_succ hj, ?_, ?_⟩
      · intro i hi
        cases i with
        | zero =>
          rw [List.getD_cons_succ, List.getD_cons_zero]
          exact le_of_lt hlt
        | succ i =>
          rw [List.getD_cons_succ, List.getD_cons_succ]
          exact hmin i (Nat.lt_of_succ_lt_succ hi)
      · intro i hi
        cases i with
        | zero =>
          rw [List.getD_cons_succ, List.getD_cons_zero]
          exact hlt
        | succ i =>
          rw [List.getD_cons_succ, List.getD_cons_succ]
          exact hstrict i (Nat.lt_of_succ_lt_succ hi)
    · push_neg at himp
      have hcc : closest_cluster p (c :: cs) = 0 := by
        rw [hstep, closestAux_stay p cs 1 (euclidean_distance_sq p c) 0 himp]
      rw [hcc]
      refine ⟨Nat.succ_pos _, ?_, ?_⟩
      · intro i hi
        cases i with
        | zero => rw [List.getD_cons_zero]
        | succ i =>
          rw [List.getD_cons_zero, List.getD_cons_succ]
          exact himp i (Nat.lt_of_succ_lt_succ hi)
      · intro i hi; exact absurd hi (Nat.not_lt_zero i)

theorem closest_cluster_lt (p : List ℚ) (cents : List (List ℚ)) (hc : cents ≠ []) :
    closest_cluster p cents < cents.length :=
  (closest_cluster_spec p cents hc).1

/-! ### appendAt -/

theorem appendAt_length (cls : List (List (List ℚ))) :
    ∀ (i : Nat) (p : List ℚ), (appendAt cls i p).length = cls.length := by
  induction cls with
  | nil => intro i p; rfl
  | cons c cs ih =>
    intro i p
    cases i with
    | zero => rfl
    | succ i => show (c :: appendAt cs i p).length = _; simp [ih]

theorem appendAt_getD_eq (cls : List (List (List ℚ))) :
    ∀ (i : Nat) (p : List ℚ), i < cls.length →
      (appendAt cls i p).getD i [] = cls.getD i [] ++ [p] := by
  induction cls with
  | nil => intro i p h; exact absurd h (Nat.not_lt_zero i)
  | cons c cs ih =>
    intro i p h
    cases i with
    | zero => rfl
    | succ i =>
      show (c :: appendAt cs i p).getD (i + 1) [] = _
      rw [List.getD_cons_succ, List.getD_cons_succ]
      exact ih i p (Nat.lt_of_succ_lt_succ h)

theorem appendAt_getD_ne (cls : List (List (List ℚ))) :
    ∀ (i j : Nat) (p : List ℚ), j ≠ i →
      (appendAt cls i p).getD j [] = cls.getD j [] := by
  induction cls with
  | nil => intro i j p _; rfl
  | cons c cs ih =>
    intro i j p hne
    cases i with
    | zero =>
      cases j with
      | zero => exact absurd rfl hne
      | succ j =>
        show ((c ++ [p]) :: cs).getD (j + 1) [] = _
        rw [List.getD_cons_succ, List.getD_cons_succ]
    | succ i =>
      cases j with
      | zero => rfl
      | succ j =>
        show (c :: appendAt cs i p).getD (j + 1) [] = _
        rw [List.getD_cons_succ, List.getD_cons_succ]
        exact ih i j p (fun h => hne (by omega))

theorem appendAt_mem (cls : List (List (List ℚ))) :
    ∀ (i : Nat) (p : List ℚ) (c : List (List ℚ)), c ∈ appendAt cls i p →
      c ∈ cls ∨ ∃ c2, c2 ∈ cls ∧ c = c2 ++ [p] := by
  induction cls with
  | nil => intro i p c h; exact absurd h (List.not_mem_nil c)
  | cons c0 cs ih =>
    intro i p c h
    cases i with
    | zero =>
      rcases List.mem_cons.mp h with h1 | h1
      · exact Or.inr ⟨c0, List.mem_cons_self _ _, h1⟩
      · exact Or.inl (List.mem_cons_of_mem _ h1)
    | succ i =>
      rcases List.mem_cons.mp h with h1 | h1
      · exact Or.inl (h1 ▸ List.mem_cons_self _ _)
      · rcases ih i p c h1 with h2 | ⟨c2, hc2, he⟩
        · exact Or.inl (List.mem_cons_of_mem _ h2)
        · exact Or.inr ⟨c2, List.mem_cons_of_mem _ hc2, he⟩

/-! ### The assignment step -/

theorem assign_foldl_length (cents : List (List ℚ)) (ps : List (List ℚ)) :
    ∀ (acc : List (List (List ℚ))),
      (ps.foldl (fun clusters point =>
        appendAt clusters (closest_cluster point cents) point) acc).length = acc.length := by
  induction ps with
  | nil => intro acc; rfl
  | cons q ps ih =>
    intro acc
    show (ps.foldl _ (appendAt acc (closest_cluster q cents) q)).length = _
    rw [ih, appendAt_length]

theorem assign_length (dps cents : List (List ℚ)) :
    (assign_to_clusters dps cents).length = cents.length := by
  unfold assign_to_clusters
  rw [assign_foldl_length, List.length_replicate]

theorem assign_foldl_forall (cents : List (List ℚ)) (P : List ℚ → Prop)
    (ps : List (List ℚ)) :
    ∀ (acc : List (List (List ℚ))),
      (∀ c ∈ acc, ∀ q ∈ c, P q) → (∀ q ∈ ps, P q) →
      ∀ c ∈ ps.foldl (fun clusters point =>
        appendAt clusters (closest_cluster point cents) point) acc, ∀ q ∈ c, P q := by
  induction ps with
  | nil => intro acc hacc _ c hc q hq; exact hacc c hc q hq
  | cons r ps ih =>
    intro acc hacc hps c hc q hq
    refine ih (appendAt acc (closest_cluster r cents) r) ?_
      (fun q hq => hps q (List.mem_cons_of_mem _ hq)) c hc q hq
    intro c1 hc1 q1 hq1
    rcases appendAt_mem acc _ r c1 hc1 with h1 | ⟨c2, hc2, he⟩
    · exact hacc c1 h1 q1 hq1
    · subst he
      rcases List.mem_append.mp hq1 with h2 | h2
      · exact hacc c2 hc2 q1 h2
      · have : q1 = r := List.mem_singleton.mp h2
        exact this ▸ hps r (List.mem_cons_self _ _)

theorem assign_points_mem (dps cents : List (List ℚ)) :
    ∀ c ∈ assign_to_clusters dps cents, ∀ q ∈ c, q ∈ dps := by
  unfold assign_to_clusters
  refine assign_foldl_forall cents (fun q => q ∈ dps) dps _ ?_ (fun q hq => hq)
  intro c hc q hq
  rw [List.eq_of_mem_replicate hc] at hq
  exact absurd hq (List.not_mem_nil q)

theorem assign_foldl_mem_closest (cents : List (List ℚ)) (hc : cents ≠ [])
    (ps : List (List ℚ)) :
    ∀ (acc : List (List (List ℚ))) (p : List ℚ), acc.length = cents.length →
      (p ∈ acc.getD (closest_cluster p cents) [] ∨ p ∈ ps) →
      p ∈ (ps.foldl (fun clusters point =>
        appendAt clusters (closest_cluster point cents) point) acc).getD
        (closest_cluster p cents) [] := by
  induction ps with
  | nil =>
    intro acc p _ h
    rcases h with h | h
    · exact h
    · exact absurd h (List.not_mem_nil p)
  | cons r ps ih =>
    intro acc p hlen h
    have hlen2 : (appendAt acc (closest_cluster r cents) r).length = cents.length := by
      rw [appendAt_length]; exact hlen
    rcases h with h | h
    · -- p is already placed; a later append leaves it in its cluster
      refine ih _ p hlen2 (Or.inl ?_)
      by_cases he : closest_cluster p cents = closest_cluster r cents
      · rw [he, appendAt_getD_eq acc _ r (by rw [hlen]; exact closest_cluster_lt r cents hc)]
        rw [← he]
        exact List.mem_append.mpr (Or.inl h)
      · rw [appendAt_getD_ne acc _ _ r he]
        exact h
    · rcases List.mem_cons.mp h with h1 | h1
      · subst h1
        refine ih _ p hlen2 (Or.inl ?_)
        rw [appendAt_getD_eq acc _ p (by rw [hlen]; exact closest_cluster_lt p cents hc)]
        exact List.mem_append.mpr (Or.inr (List.mem_singleton.mpr rfl))
      · exact ih _ p hlen2 (Or.inr h1)

/-! ### The update step -/

theorem update_length (cls : List (List (List ℚ))) (d : Nat) :
    (update_centroids cls d).length = cls.length := by
  unfold update_centroids; rw [List.length_map]

theorem zipWith_add_getD (a : List ℚ) :
    ∀ (b : List ℚ) (j : Nat), j < a.length → j < b.length →
      (List.zipWith (fun x y => x + y) a b).getD j 0 = a.getD j 0 + b.getD j 0 := by
  induction a with
  | nil => intro b j h _; exact absurd h (Nat.not_lt_zero j)
  | cons x xs ih =>
    intro b j ha hb
    cases b with
    | nil => exact absurd hb (Nat.not_lt_zero j)
    | cons y ys =>
      cases j with
      | zero => simp [List.getD_cons_zero]
      | succ j =>
        simp only [List.zipWith_cons_cons, List.getD_cons_succ]
        exact ih ys j (Nat.lt_of_succ_lt_succ ha) (Nat.lt_of_succ_lt_succ hb)

theorem foldl_sum_length (d : Nat) (cluster : List (List ℚ)) :
    ∀ (acc : List ℚ), acc.length = d → (∀ q ∈ cluster, q.length = d) →
      (cluster.foldl (fun acc point => List.zipWith (fun a b => a + b) acc point)
        acc).length = d := by
  induction cluster with
  | nil => intro acc ha _; exact ha
  | cons q cl ih =>
    intro acc ha hq
    show (cl.foldl _ (List.zipWith (fun a b => a + b) acc q)).length = d
    refine ih _ ?_ (fun r hr => hq r (List.mem_cons_of_mem _ hr))
    rw [List.length_zipWith, ha, hq q (List.mem_cons_self _ _)]
    exact Nat.min_self d

theorem foldl_sum_getD (d j : Nat) (cluster : List (List ℚ)) :
    ∀ (acc : List ℚ), acc.length = d → (∀ q ∈ cluster, q.length = d) → j < d →
      (cluster.foldl (fun acc point => List.zipWith (fun a b => a + b) acc point)
        acc).getD j 0 = acc.getD j 0 + coordSum cluster j := by
  induction cluster with
  | nil => intro acc _ _ _; simp [coordSum]
  | cons q cl ih =>
    intro acc ha hq hj
    show (cl.foldl _ (List.zipWith (fun a b => a + b) acc q)).getD j 0 = _
    have hqlen : q.length = d := hq q (List.mem_cons_self _ _)
    have hzlen : (List.zipWith (fun a b => a + b) acc q).length = d := by
      rw [List.length_zipWith, ha, hqlen]; exact Nat.min_self d
    rw [ih _ hzlen (fun r hr => hq r (List.mem_cons_of_mem _ hr)) hj]
    rw [zipWith_add_getD acc q j (ha ▸ hj) (hqlen ▸ hj)]
    have : coordSum (q :: cl) j = q.getD j 0 + coordSum cl j := by
      unfold coordSum; rw [List.map_cons, List.sum_cons]
    rw [this]; ring

theorem update_getD (cls : List (List (List ℚ))) (d i : Nat) (hi : i < cls.length) :
    (update_centroids cls d).getD i [] =
      (if (cls.getD i []).length = 0 then List.replicate d (0 : ℚ)
       else ((cls.getD i []).foldl
         (fun acc point => List.zipWith (fun a b => a + b) acc point)
         (List.replicate d (0 : ℚ))).map
         (fun s => s / ((cls.getD i []).length : ℚ))) := by
  unfold update_centroids
  rw [List.getD_eq_getElem _ _ (by rw [List.length_map]; exact hi)]
  rw [List.getElem_map, List.getD_eq_getElem _ _ hi]

theorem update_members_length (cls : List (List (List ℚ))) (d : Nat)
    (hq : ∀ c ∈ cls, ∀ q ∈ c, q.length = d) :
    ∀ x ∈ update_centroids cls d, x.length = d := by
  intro x hx
  unfold update_centroids at hx
  rcases List.mem_map.mp hx with ⟨cluster, hcl, he⟩
  by_cases hz : cluster.length = 0
  · rw [← he, if_pos hz, List.length_replicate]
  · rw [← he, if_neg hz, List.length_map]
    exact foldl_sum_length d cluster _ (List.length_replicate _ _) (hq cluster hcl)

/-! ### The convergence check -/

theorem has_converged_iff_q (old : List (List ℚ)) :
    ∀ (new : List (List ℚ)), old.length = new.length →
      (has_converged old new = true ↔ ∀ i, i < old.length →
        euclidean_distance_sq (old.getD i []) (new.getD i []) < epsilon_sq) := by
  induction old with
  | nil =>
    intro new _
    constructor
    · intro _ i hi; exact absurd hi (Nat.not_lt_zero i)
    · intro _; rfl
  | cons o os ih =>
    intro new hlen
    cases new with
    | nil => exact absurd hlen (by simp)
    | cons n ns =>
      have hlen2 : os.length = ns.length := by simpa using hlen
      show ((if epsilon_sq ≤ euclidean_distance_sq o n then false
        else has_converged os ns) = true) ↔ _
      by_cases hd : epsilon_sq ≤ euclidean_distance_sq o n
      · rw [if_pos hd]
        constructor
        · intro h; exact absurd h (by simp)
        · intro h
          have := h 0 (Nat.succ_pos _)
          rw [List.getD_cons_zero, List.getD_cons_zero] at this
          exact absurd this (not_lt.mpr hd)
      · rw [if_neg hd]
        rw [ih ns hlen2]
        constructor
        · intro h i hi
          cases i with
          | zero =>
            rw [List.getD_cons_zero, List.getD_cons_zero]
            exact not_le.mp hd
          | succ i =>
            rw [List.getD_cons_succ, List.getD_cons_succ]
            exact h i (Nat.lt_of_succ_lt_succ hi)
        · intro h i hi
          have := h (i + 1) (Nat.succ_lt_succ hi)
          rw [List.getD_cons_succ, List.getD_cons_succ] at this
          exact this

theorem has_converged_self (l : List (List ℚ)) : has_converged l l = true := by
  induction l with
  | nil => rfl
  | cons x xs ih =>
    show (if epsilon_sq ≤ euclidean_distance_sq x x then false
      else has_converged xs xs) = true
    rw [dsq_self, if_neg (by unfold epsilon_sq; norm_num), ih]

/-! ### The driver loop -/

theorem kmeansLoop_succ_exists (dps : List (List ℚ)) (dim : Nat) (n : Nat) :
    ∀ (c : List (List ℚ)), ∃ c0, kmeansLoop dps dim (n + 1) c =
      update_centroids (assign_to_clusters dps c0) dim := by
  induction n with
  | zero =>
    intro c
    refine ⟨c, ?_⟩
    show (if has_converged c (update_centroids (assign_to_clusters dps c) dim)
      then update_centroids (assign_to_clusters dps c) dim
      else kmeansLoop dps dim 0 (update_centroids (assign_to_clusters dps c) dim)) = _
    split <;> rfl
  | succ n ih =>
    intro c
    show (∃ c0, (if has_converged c (update_centroids (assign_to_clusters dps c) dim)
      then update_centroids (assign_to_clusters dps c) dim
      else kmeansLoop dps dim (n + 1)
        (update_centroids (assign_to_clusters dps c) dim)) = _)
    by_cases h : has_converged c (update_centroids (assign_to_clusters dps c) dim) = true
    · exact ⟨c, by rw [if_pos h]⟩
    · obtain ⟨c0, hc0⟩ := ih (update_centroids (assign_to_clusters dps c) dim)
      exact ⟨c0, by rw [if_neg h, hc0]⟩

theorem kmeansLoop_len_dim (dps : List (List ℚ)) (d : Nat)
    (hd : ∀ p ∈ dps, p.length = d) (n : Nat) :
    ∀ (c : List (List ℚ)), (∀ x ∈ c, x.length = d) →
      (kmeansLoop dps d n c).length = c.length ∧
      ∀ x ∈ kmeansLoop dps d n c, x.length = d := by
  induction n with
  | zero => intro c hc; exact ⟨rfl, hc⟩
  | succ n ih =>
    intro c hc
    have hnew_len : (update_centroids (assign_to_clusters dps c) d).length = c.length := by
      rw [update_length, assign_length]
    have hnew_mem : ∀ x ∈ update_centroids (assign_to_clusters dps c) d, x.length = d := by
      refine update_members_length _ d ?_
      intro cl hcl q hq
      exact hd q (assign_points_mem dps c cl hcl q hq)
    show (kmeansLoop dps d (n + 1) c).length = c.length ∧ _
    have hunfold : kmeansLoop dps d (n + 1) c =
        (if has_converged c (update_centroids (assign_to_clusters dps c) d)
         then update_centroids (assign_to_clusters dps c) d
         else kmeansLoop dps d n (update_centroids (assign_to_clusters dps c) d)) := rfl
    rw [hunfold]
    by_cases h : has_converged c (update_centroids (assign_to_clusters dps c) d) = true
    · rw [if_pos h]; exact ⟨hnew_len, hnew_mem⟩
    · rw [if_neg h]
      obtain ⟨h1, h2⟩ := ih (update_centroids (assign_to_clusters dps c) d) hnew_mem
      exact ⟨by rw [h1, hnew_len], h2⟩

theorem take_getD (l : List (List ℚ)) :
    ∀ (k i : Nat), i < k → (l.take k).getD i [] = l.getD i [] := by
  induction l with
  | nil => intro k i _; rw [List.take_nil]
  | cons x xs ih =>
    intro k i hik
    cases k with
    | zero => exact absurd hik (Nat.not_lt_zero i)
    | succ k =>
      rw [List.take_succ_cons]
      cases i with
      | zero => rw [List.getD_cons_zero, List.getD_cons_zero]
      | succ i =>
        rw [List.getD_cons_succ, List.getD_cons_succ]
        exact ih k i (Nat.lt_of_succ_lt_succ hik)

theorem read_input_aux_blank (parseFloat : String → Option ℚ) (lines : List String) :
    ∀ (dim : Option Nat) (acc : List (List ℚ)),
      (∀ l ∈ lines, (py_strip l).data.isEmpty = true) →
      read_input_aux parseFloat lines dim acc = some acc := by
  induction lines with
  | nil => intro dim acc _; rfl
  | cons line rest ih =>
    intro dim acc h
    show (if (py_strip line).data.isEmpty then read_input_aux parseFloat rest dim acc
      else _) = _
    rw [if_pos (h line (List.mem_cons_self _ _))]
    exact ih dim acc (fun l hl => h l (List.mem_cons_of_mem _ hl))

/-! ### Claims -/

/-- C1: for every valid input (all points of dimension d, k at most the
number of points), kmeans returns exactly k centroids and every
returned centroid has dimension d. -/
theorem kmeans_count_and_dim (dps : List (List ℚ)) (k m d : Nat)
    (hne : dps ≠ []) (hd : ∀ p ∈ dps, p.length = d) (hk : k ≤ dps.length) :
    (kmeans dps k m).length = k ∧ ∀ c ∈ kmeans dps k m, c.length = d := by
  have hdim : dps.headI.length = d := by
    cases dps with
    | nil => exact absurd rfl hne
    | cons p rest => exact hd p (List.mem_cons_self _ _)
  have hinit_len : (initial_centroids dps k).length = k := by
    unfold initial_centroids
    rw [List.length_take]
    exact Nat.min_eq_left hk
  have hinit_mem : ∀ x ∈ initial_centroids dps k, x.length = d := by
    intro x hx
    exact hd x (List.take_subset k dps hx)
  unfold kmeans
  rw [hdim]
  obtain ⟨h1, h2⟩ := kmeansLoop_len_dim dps d hd m (initial_centroids dps k) hinit_mem
  exact ⟨by rw [h1, hinit_len], h2⟩

/-- C1 witness: four 1-dimensional points, k = 2, max_iter = 3. -/
theorem kmeans_count_and_dim_witness :
    ([[0], [1], [10], [11]] : List (List ℚ)) ≠ [] ∧
    (kmeans [[0], [1], [10], [11]] 2 3).length = 2 ∧
    ∀ c ∈ kmeans ([[0], [1], [10], [11]] : List (List ℚ)) 2 3, c.length = 1 := by
  have h := kmeans_count_and_dim [[0], [1], [10], [11]] 2 3 1
    (by decide) (by decide) (by decide)
  exact ⟨by decide, h.1, h.2⟩

/-- C2: every point is assigned to an in-range centroid index whose
Euclidean distance is minimal, every centroid of strictly smaller index
is at a strictly larger Euclidean distance (ties keep the lower index),
and the point is appended to precisely that group. -/
theorem assign_nearest_tiebreak (p : List ℚ) (cents dps : List (List ℚ))
    (hc : cents ≠ []) (hp : p ∈ dps) :
    closest_cluster p cents < cents.length ∧
    (∀ i, i < cents.length →
      Real.sqrt ((euclidean_distance_sq p (cents.getD (closest_cluster p cents) []) : ℝ)) ≤
        Real.sqrt ((euclidean_distance_sq p (cents.getD i []) : ℝ))) ∧
    (∀ i, i < closest_cluster p cents →
      Real.sqrt ((euclidean_distance_sq p (cents.getD (closest_cluster p cents) []) : ℝ)) <
        Real.sqrt ((euclidean_distance_sq p (cents.getD i []) : ℝ))) ∧
    p ∈ (assign_to_clusters dps cents).getD (closest_cluster p cents) [] := by
  obtain ⟨h1, h2, h3⟩ := closest_cluster_spec p cents hc
  refine ⟨h1, ?_, ?_, ?_⟩
  · intro i hi
    exact (sqrt_rat_le_sqrt_rat_iff _ _ (dsq_nonneg _ _)).mpr (h2 i hi)
  · intro i hi
    exact (sqrt_rat_lt_sqrt_rat_iff _ _ (dsq_nonneg _ _)).mpr (h3 i hi)
  · unfold assign_to_clusters
    exact assign_foldl_mem_closest cents hc dps _ p
      (List.length_replicate _ _) (Or.inr hp)

/-- C2 witness: the point 1 is equidistant from the centroids 0 and 2
and is assigned to the lower-indexed one. -/
theorem assign_nearest_tiebreak_witness :
    ([[0], [2]] : List (List ℚ)) ≠ [] ∧ ([1] : List ℚ) ∈ [[(1 : ℚ)]] ∧
    closest_cluster [1] [[0], [2]] < 2 ∧
    [1] ∈ (assign_to_clusters [[(1 : ℚ)]] [[0], [2]]).getD
      (closest_cluster [1] [[0], [2]]) [] := by
  have h := assign_nearest_tiebreak [1] [[0], [2]] [[(1 : ℚ)]]
    (by decide) (by decide)
  exact ⟨by decide, by decide, h.1, h.2.2.2⟩

/-- C3: the update step keeps the indexing of the groups, an empty
group yields the all-zero vector of dimension d, and a non-empty group
yields the coordinate-wise arithmetic mean of its points. -/
theorem update_centroids_mean (clusters : List (List (List ℚ))) (d i : Nat)
    (hi : i < clusters.length) (hlen : ∀ q ∈ clusters.getD i [], q.length = d) :
    (update_centroids clusters d).length = clusters.length ∧
    (clusters.getD i [] = [] →
      (update_centroids clusters d).getD i [] = List.replicate d (0 : ℚ)) ∧
    (clusters.getD i [] ≠ [] → ∀ j, j < d →
      ((update_centroids clusters d).getD i []).getD j 0 =
        coordSum (clusters.getD i []) j / ((clusters.getD i []).length : ℚ)) := by
  refine ⟨update_length clusters d, ?_, ?_⟩
  · intro hemp
    rw [update_getD clusters d i hi, if_pos (by rw [hemp]; rfl)]
  · intro hne j hj
    have hlz : (clusters.getD i []).length ≠ 0 := by
      intro h; exact hne (List.length_eq_zero.mp h)
    rw [update_getD clusters d i hi, if_neg hlz]
    have hslen : ((clusters.getD i []).foldl
        (fun acc point => List.zipWith (fun a b => a + b) acc point)
        (List.replicate d (0 : ℚ))).length = d :=
      foldl_sum_length d _ _ (List.length_replicate _ _) hlen
    rw [List.getD_eq_getElem _ _ (by rw [List.length_map, hslen]; exact hj),
      List.getElem_map, ← List.getD_eq_getElem _ 0 (by rw [hslen]; exact hj)]
    rw [foldl_sum_getD d j _ _ (List.length_replicate _ _) hlen hj]
    rw [List.getD_eq_getElem _ _ (by rw [List.length_replicate]; exact hj),
      List.getElem_replicate]
    rw [zero_add]

/-- C3 witness: two groups in dimension 2, the first empty, the second
holding the points (1,3) and (3,5); the new centroids are (0,0) and
(2,4). -/
theorem update_centroids_mean_witness :
    (0 : Nat) < 2 ∧
    (update_centroids [[], [[1, 3], [3, 5]]] 2).length = 2 ∧
    (update_centroids [[], [[1, 3], [3, 5]]] 2).getD 0 [] =
      List.replicate 2 (0 : ℚ) ∧
    ((update_centroids [[], [[1, 3], [3, 5]]] 2).getD 1 []).getD 0 0 =
      coordSum [[(1 : ℚ), 3], [3, 5]] 0 / 2 := by
  have h0 := update_centroids_mean [[], [[1, 3], [3, 5]]] 2 0
    (by decide) (by decide)
  have h1 := update_centroids_mean [[], [[1, 3], [3, 5]]] 2 1
    (by decide) (by decide)
  refine ⟨by decide, h0.1, h0.2.1 (by decide), ?_⟩
  have := h1.2.2 (by decide) 0 (by decide)
  simpa using this

theorem kmeansLoop_succ_eq (dps : List (List ℚ)) (dim n : Nat) (c : List (List ℚ)) :
    kmeansLoop dps dim (n + 1) c =
      if has_converged c (update_centroids (assign_to_clusters dps c) dim) = true
      then update_centroids (assign_to_clusters dps c) dim
      else kmeansLoop dps dim n (update_centroids (assign_to_clusters dps c) dim) := rfl

/-- C4: on parallel centroid lists of equal length, the convergence
check returns true exactly when every index-aligned Euclidean distance
is strictly below epsilon = 0.001, and returns false whenever some
index-aligned distance is at least 0.001. -/
theorem has_converged_dist (old new : List (List ℚ)) (h : old.length = new.length) :
    (has_converged old new = true ↔ ∀ i, i < old.length →
      Real.sqrt ((euclidean_distance_sq (old.getD i []) (new.getD i []) : ℝ)) < 1 / 1000) ∧
    ((∃ i, i < old.length ∧ (1 : ℝ) / 1000 ≤
      Real.sqrt ((euclidean_distance_sq (old.getD i []) (new.getD i []) : ℝ))) →
      has_converged old new = false) := by
  have hq := has_converged_iff_q old new h
  refine ⟨?_, ?_⟩
  · rw [hq]
    constructor
    · intro H i hi
      exact (sqrt_rat_lt_thousandth_iff _).mpr (H i hi)
    · intro H i hi
      exact (sqrt_rat_lt_thousandth_iff _).mp (H i hi)
  · intro Hex
    cases hcb : has_converged old new
    · rfl
    · obtain ⟨i, hi, hge⟩ := Hex
      exact absurd ((sqrt_rat_lt_thousandth_iff _).mpr ((hq.mp hcb) i hi))
        (not_lt.mpr hge)

/-- C4 witness: identical singleton centroid lists. -/
theorem has_converged_dist_witness :
    ([[(0 : ℚ)]] : List (List ℚ)).length = ([[(0 : ℚ)]] : List (List ℚ)).length ∧
    (has_converged [[(0 : ℚ)]] [[(0 : ℚ)]] = true ↔
      ∀ i, i < ([[(0 : ℚ)]] : List (List ℚ)).length →
        Real.sqrt ((euclidean_distance_sq (([[(0 : ℚ)]] : List (List ℚ)).getD i [])
          (([[(0 : ℚ)]] : List (List ℚ)).getD i []) : ℝ)) < 1 / 1000) :=
  ⟨rfl, (has_converged_dist [[(0 : ℚ)]] [[(0 : ℚ)]] rfl).1⟩

/-- C5: the driver starts from the first k input points in input order,
and whenever at least one iteration runs (max_iter is at least 1, which
validation guarantees), the returned centroids are the output of the
final update step — never the pre-iteration centroids. -/
theorem kmeans_init_and_adopts (dps : List (List ℚ)) (k m : Nat)
    (hk : k ≤ dps.length) (hm : 1 ≤ m) :
    (initial_centroids dps k).length = k ∧
    (∀ i, i < k → (initial_centroids dps k).getD i [] = dps.getD i []) ∧
    ∃ c, kmeans dps k m = update_centroids (assign_to_clusters dps c)
      dps.headI.length := by
  refine ⟨?_, ?_, ?_⟩
  · unfold initial_centroids
    rw [List.length_take]
    exact Nat.min_eq_left hk
  · intro i hi
    unfold initial_centroids
    exact take_getD dps k i hi
  · cases m with
    | zero => exact absurd hm (by norm_num)
    | succ n =>
      obtain ⟨c0, hc0⟩ :=
        kmeansLoop_succ_exists dps dps.headI.length n (initial_centroids dps k)
      exact ⟨c0, hc0⟩

/-- C5 witness: three 1-dimensional points, k = 2, one iteration. -/
theorem kmeans_init_and_adopts_witness :
    2 ≤ ([[(0 : ℚ)], [1], [3]] : List (List ℚ)).length ∧ 1 ≤ 1 ∧
    ((initial_centroids [[(0 : ℚ)], [1], [3]] 2).length = 2 ∧
     (∀ i, i < 2 → (initial_centroids [[(0 : ℚ)], [1], [3]] 2).getD i [] =
       ([[(0 : ℚ)], [1], [3]] : List (List ℚ)).getD i []) ∧
     ∃ c, kmeans [[(0 : ℚ)], [1], [3]] 2 1 =
       update_centroids (assign_to_clusters [[(0 : ℚ)], [1], [3]] c)
         ([[(0 : ℚ)], [1], [3]] : List (List ℚ)).headI.length) :=
  ⟨by decide, by decide,
    kmeans_init_and_adopts [[(0 : ℚ)], [1], [3]] 2 1 (by decide) (by decide)⟩

set_option maxHeartbeats 1600000 in
/-- C6 counterexample: on the five points of cexPoints with k = 2 and
the default max_iter = 400, the driver converges in its first iteration
(the convergence check accepts the freshly updated candidates), yet one
additional assignment-and-update iteration started from the returned
centroids moves centroid 0 by far more than epsilon = 0.001, because
the point 0.5005 changes sides between the two centroid lists. -/
theorem kmeans_extra_iteration_cex :
    has_converged (initial_centroids cexPoints 2) (kmeans cexPoints 2 400) = true ∧
    ¬ Real.sqrt ((euclidean_distance_sq ((kmeans cexPoints 2 400).getD 0 [])
      ((update_centroids (assign_to_clusters cexPoints (kmeans cexPoints 2 400)) 1).getD
        0 []) : ℝ)) < 1 / 1000 := by
  have hinit : initial_centroids cexPoints 2 = [[0], [1]] := by
    norm_num [initial_centroids, cexPoints]
  have hA : update_centroids (assign_to_clusters cexPoints [[0], [1]]) 1 =
      [[1 / 1250], [1251 / 1250]] := by
    norm_num [cexPoints, assign_to_clusters, closest_cluster, closestAux, appendAt,
      update_centroids, euclidean_distance_sq]
    exact ⟨List.cons_ne_nil _ _, List.cons_ne_nil _ _⟩
  have hconv : has_converged [[0], [1]] [[1 / 1250], [1251 / 1250]] = true := by
    norm_num [has_converged, euclidean_distance_sq, epsilon_sq]
  have hrun : kmeans cexPoints 2 400 = [[1 / 1250], [1251 / 1250]] := by
    show kmeansLoop cexPoints cexPoints.headI.length 400 (initial_centroids cexPoints 2) = _
    rw [hinit]
    rw [show cexPoints.headI.length = 1 from rfl]
    rw [show (400 : Nat) = 399 + 1 from rfl, kmeansLoop_succ_eq, hA, if_pos hconv]
  have hB : update_centroids (assign_to_clusters cexPoints [[1 / 1250], [1251 / 1250]]) 1 =
      [[5021 / 30000], [25019 / 20000]] := by
    norm_num [cexPoints, assign_to_clusters, closest_cluster, closestAux, appendAt,
      update_centroids, euclidean_distance_sq]
    exact ⟨List.cons_ne_nil _ _, List.cons_ne_nil _ _⟩
  have hd : epsilon_sq ≤ euclidean_distance_sq [1 / 1250] [5021 / 30000] := by
    norm_num [euclidean_distance_sq, epsilon_sq]
  constructor
  · rw [hinit, hrun]
    exact hconv
  · rw [hrun, hB]
    simp only [List.getD_cons_zero]
    intro hlt
    exact absurd ((sqrt_rat_lt_thousandth_iff _).mp hlt) (not_lt.mpr hd)

/-- C6 amended: past convergence, one additional iteration stays within
epsilon of the returned centroids provided the assignment step produces
the same partition for the returned centroids as for the pre-update
ones; in that case the extra update reproduces the returned centroids
exactly.  (Without that proviso the property fails, as
kmeans_extra_iteration_cex shows.) -/
theorem kmeans_converged_stable_step (dps : List (List ℚ)) (dim : Nat)
    (c : List (List ℚ))
    (_h1 : has_converged c (update_centroids (assign_to_clusters dps c) dim) = true)
    (h2 : assign_to_clusters dps (update_centroids (assign_to_clusters dps c) dim) =
      assign_to_clusters dps c) :
    has_converged (update_centroids (assign_to_clusters dps c) dim)
      (update_centroids (assign_to_clusters dps
        (update_centroids (assign_to_clusters dps c) dim)) dim) = true := by
  rw [h2]
  exact has_converged_self _

/-- C6 amended witness: four points split evenly between the centroids
0 and 1; the update returns the centroids unchanged, the run is
converged, the assignment is stable, and the extra iteration stays
within epsilon. -/
theorem kmeans_converged_stable_step_witness :
    has_converged [[0], [1]]
      (update_centroids (assign_to_clusters [[(0 : ℚ)], [0], [1], [1]] [[0], [1]]) 1) =
        true ∧
    assign_to_clusters [[(0 : ℚ)], [0], [1], [1]]
      (update_centroids (assign_to_clusters [[(0 : ℚ)], [0], [1], [1]] [[0], [1]]) 1) =
      assign_to_clusters [[(0 : ℚ)], [0], [1], [1]] [[0], [1]] ∧
    has_converged
      (update_centroids (assign_to_clusters [[(0 : ℚ)], [0], [1], [1]] [[0], [1]]) 1)
      (update_centroids (assign_to_clusters [[(0 : ℚ)], [0], [1], [1]]
        (update_centroids (assign_to_clusters [[(0 : ℚ)], [0], [1], [1]] [[0], [1]]) 1))
        1) = true := by
  have hstep : update_centroids
      (assign_to_clusters [[(0 : ℚ)], [0], [1], [1]] [[0], [1]]) 1 = [[0], [1]] := by
    norm_num [assign_to_clusters, closest_cluster, closestAux, appendAt,
      update_centroids, euclidean_distance_sq]
    exact fun h => absurd h (List.cons_ne_nil _ _)
  have h1 : has_converged [[0], [1]]
      (update_centroids (assign_to_clusters [[(0 : ℚ)], [0], [1], [1]] [[0], [1]]) 1) =
        true := by
    rw [hstep]
    exact has_converged_self _
  have h2 : assign_to_clusters [[(0 : ℚ)], [0], [1], [1]]
      (update_centroids (assign_to_clusters [[(0 : ℚ)], [0], [1], [1]] [[0], [1]]) 1) =
      assign_to_clusters [[(0 : ℚ)], [0], [1], [1]] [[0], [1]] := by
    rw [hstep]
  exact ⟨h1, h2, kmeans_converged_stable_step [[(0 : ℚ)], [0], [1], [1]] 1 [[0], [1]] h1 h2⟩

/-- C7: with a non-empty parsed input of N points, k = 1 and k = N are
rejected with the clusters message, max_iter = 1 and max_iter = 800 are
rejected with the iterations message, and max_iter = 2 and
max_iter = 799 are accepted (the failure constructor models printing
the message and exiting with status 1). -/
theorem main_boundary_validation (pF : String → Option ℚ) (prog : String)
    (lines : List String) (dps : List (List ℚ)) (kStr NStr : String) (kv : Int)
    (hread : read_input pF lines = some dps) (hne : dps ≠ [])
    (hkS : parse_int_strict kStr = some kv) (hk1 : 1 < kv)
    (hkN : kv < (dps.length : Int))
    (hNS : parse_int_strict NStr = some (dps.length : Int)) :
    main_run pF [prog, "1"] lines = MainResult.failure "Incorrect number of clusters!" ∧
    main_run pF [prog, NStr] lines = MainResult.failure "Incorrect number of clusters!" ∧
    main_run pF [prog, kStr, "1"] lines =
      MainResult.failure "Incorrect maximum iteration!" ∧
    main_run pF [prog, kStr, "800"] lines =
      MainResult.failure "Incorrect maximum iteration!" ∧
    (∃ cs, main_run pF [prog, kStr, "2"] lines = MainResult.success cs) ∧
    (∃ cs, main_run pF [prog, kStr, "799"] lines = MainResult.success cs) := by
  have hlen0 : ¬(dps.length = 0) := fun h => hne (List.length_eq_zero.mp h)
  have hnk1 : ¬(kv ≤ 1) := not_le.mpr hk1
  have hnkN : ¬((dps.length : Int) ≤ kv) := not_le.mpr hkN
  have hp1 : parse_int_strict "1" = some 1 := by decide
  have hp800 : parse_int_strict "800" = some 800 := by decide
  have hp2 : parse_int_strict "2" = some 2 := by decide
  have hp799 : parse_int_strict "799" = some 799 := by decide
  refine ⟨?_, ?_, ?_, ?_, ?_, ?_⟩
  · simp [main_run, hp1, hread, hlen0]
  · simp [main_run, hNS, hread, hlen0]
  · simp [main_run, hkS, hp1, hread, hlen0, hnk1, hnkN]
  · simp [main_run, hkS, hp800, hread, hlen0, hnk1, hnkN]
  · refine ⟨kmeans dps kv.toNat 2, ?_⟩
    simp [main_run, hkS, hp2, hread, hlen0, hnk1, hnkN]
  · refine ⟨kmeans dps kv.toNat 799, ?_⟩
    simp [main_run, hkS, hp799, hread, hlen0, hnk1, hnkN]

/-- C7 witness: four points read from four lines, k = 2, N = 4. -/
theorem main_boundary_validation_witness :
    read_input (fun _ => some (0 : ℚ)) ["x", "x", "x", "x"] =
      some [[0], [0], [0], [0]] ∧
    1 < (2 : Int) ∧
    main_run (fun _ => some (0 : ℚ)) ["p", "1"] ["x", "x", "x", "x"] =
      MainResult.failure "Incorrect number of clusters!" ∧
    main_run (fun _ => some (0 : ℚ)) ["p", "4"] ["x", "x", "x", "x"] =
      MainResult.failure "Incorrect number of clusters!" ∧
    main_run (fun _ => some (0 : ℚ)) ["p", "2", "1"] ["x", "x", "x", "x"] =
      MainResult.failure "Incorrect maximum iteration!" ∧
    main_run (fun _ => some (0 : ℚ)) ["p", "2", "800"] ["x", "x", "x", "x"] =
      MainResult.failure "Incorrect maximum iteration!" ∧
    (∃ cs, main_run (fun _ => some (0 : ℚ)) ["p", "2", "2"] ["x", "x", "x", "x"] =
      MainResult.success cs) ∧
    (∃ cs, main_run (fun _ => some (0 : ℚ)) ["p", "2", "799"] ["x", "x", "x", "x"] =
      MainResult.success cs) := by
  have h := main_boundary_validation (fun _ => some (0 : ℚ)) "p" ["x", "x", "x", "x"]
    [[0], [0], [0], [0]] "2" "4" 2 (by decide) (by decide) (by decide) (by decide)
    (by decide) (by decide)
  exact ⟨by decide, by decide, h.1, h.2.1, h.2.2.1, h.2.2.2.1,
    h.2.2.2.2.1, h.2.2.2.2.2⟩

/-- C8: a k argument that strict parsing rejects always produces the
clusters message (exit status 1); "2.5" and "2x" are rejected; and a
string is accepted exactly when int() parses it and re-stringifying the
value reproduces the original token. -/
theorem parse_strict_round_trip (pF : String → Option ℚ) (prog : String)
    (lines : List String) (s : String) (hs : parse_int_strict s = none) :
    main_run pF [prog, s] lines = MainResult.failure "Incorrect number of clusters!" ∧
    parse_int_strict "2.5" = none ∧
    parse_int_strict "2x" = none ∧
    (∀ t n, parse_int_strict t = some n ↔
      (py_int_of_string t = some n ∧ py_str_of_int n = t)) := by
  refine ⟨?_, by decide, by decide, ?_⟩
  · simp [main_run, hs]
  · intro t n
    unfold parse_int_strict
    cases ht : py_int_of_string t with
    | none => simp
    | some m =>
      show (if py_str_of_int m = t then some m else none) = some n ↔ _
      by_cases he : py_str_of_int m = t
      · rw [if_pos he]
        constructor
        · intro h
          rw [Option.some.injEq] at h
          subst h
          exact ⟨rfl, he⟩
        · rintro ⟨h1, h2⟩
          rw [Option.some.injEq] at h1
          subst h1
          rfl
      · rw [if_neg he]
        constructor
        · intro h
          exact absurd h (by simp)
        · rintro ⟨h1, h2⟩
          rw [Option.some.injEq] at h1
          subst h1
          exact absurd h2 he

/-- C8 witness: the token 2.5. -/
theorem parse_strict_round_trip_witness :
    parse_int_strict "2.5" = none ∧
    main_run (fun _ => some (0 : ℚ)) ["p", "2.5"] [] =
      MainResult.failure "Incorrect number of clusters!" := by
  have h := parse_strict_round_trip (fun _ => some (0 : ℚ)) "p" [] "2.5" (by decide)
  exact ⟨by decide, h.1⟩

/-- C9: a stream of only blank lines parses to zero points, and with a
well-formed k argument the program then fails with the generic message
(exit status 1), not the clusters message: the empty-input check runs
before the k range check. -/
theorem empty_input_generic_error (pF : String → Option ℚ) (prog kStr : String)
    (lines : List String) (k : Int)
    (hk : parse_int_strict kStr = some k)
    (hblank : ∀ l ∈ lines, (py_strip l).data.isEmpty = true) :
    read_input pF lines = some [] ∧
    main_run pF [prog, kStr] lines = MainResult.failure "An Error Has Occurred" := by
  have hri : read_input pF lines = some [] :=
    read_input_aux_blank pF lines none [] hblank
  refine ⟨hri, ?_⟩
  simp [main_run, hk, hri]

/-- C9 witness: an empty line and a whitespace-only line, k argument 2. -/
theorem empty_input_generic_error_witness :
    parse_int_strict "2" = some 2 ∧
    read_input (fun _ => some (0 : ℚ)) ["", "  "] = some [] ∧
    main_run (fun _ => some (0 : ℚ)) ["p", "2"] ["", "  "] =
      MainResult.failure "An Error Has Occurred" := by
  have h := empty_input_generic_error (fun _ => some (0 : ℚ)) "p" "2" ["", "  "] 2
    (by decide) (by decide)
  exact ⟨by decide, h.1, h.2⟩
